import Mathlib

/-!
Shallow embedding of the core of `conway.py` (Conway's Game of Life):
grid construction with ragged-row padding, neighbour counting,
next-generation derivation, and the run loop with its bounded history
and repeated-pattern halting policy.

Cells are the characters used by the source: `'*'` (alive) and `'-'`
(dead).  A grid is a list of rows, each row a list of characters,
mirroring the `List[List[str]]` of the source.  Machine integers do not
overflow at these sizes, so `Nat`/`Int` model Python integers directly.
-/

namespace Conway

/-- A grid of cells: a list of rows, each row a list of characters. -/
abbrev GridT := List (List Char)

/-- Source constant `ALIVE = '*'`. -/
def ALIVE : Char := '*'

/-- Source constant `DEAD = '-'`. -/
def DEAD : Char := '-'

/-- Source constant `ITERATION_HISTORY_SIZE = 15`. -/
def ITERATION_HISTORY_SIZE : Nat := 15

/-- Source constant `MAX_ITERATIONS = 2000`. -/
def MAX_ITERATIONS : Nat := 2000

/-- Source constant `MAX_COPIES_IN_HISTORY = 4`. -/
def MAX_COPIES_IN_HISTORY : Nat := 4

/-- Source `Point` namedtuple: `x` is the column, `y` is the row.
Coordinates are integers, since neighbour offsets go to `-1`. -/
structure Point where
  x : Int
  y : Int
deriving DecidableEq

/-- Reading `grid[p.y][p.x]` (used only under a `valid_loc` guard in the
source, so the fallback value is never observed there). -/
def cellAt (grid : GridT) (p : Point) : Char :=
  (grid.getD p.y.toNat []).getD p.x.toNat DEAD

/-- Reading `grid[y][x]` at natural indices. -/
def cellAtNat (grid : GridT) (x y : Nat) : Char :=
  (grid.getD y []).getD x DEAD

/-- Source `ConwaysGameOfLife.valid_loc`: the location is inside the grid,
with the column bound taken from the first row (`len(grid[0])`). -/
def valid_loc (grid : GridT) (location : Point) : Bool :=
  if ¬ (0 ≤ location.x ∧ location.x < ((grid.getD 0 []).length : Int)) then
    false
  else if ¬ (0 ≤ location.y ∧ location.y < ((grid.length : Int))) then
    false
  else
    true

/-- The eight neighbour points listed in `count_neighbours`, in source
order: top, right, bottom, left, then the four diagonals. -/
def neighbours (here : Point) : List Point :=
  [ ⟨here.x, here.y - 1⟩,
    ⟨here.x + 1, here.y⟩,
    ⟨here.x, here.y + 1⟩,
    ⟨here.x - 1, here.y⟩,
    ⟨here.x - 1, here.y - 1⟩,
    ⟨here.x + 1, here.y - 1⟩,
    ⟨here.x + 1, here.y + 1⟩,
    ⟨here.x - 1, here.y + 1⟩ ]

/-- Source `ConwaysGameOfLife.count_neighbours`: count, over the eight
candidate neighbours, those that are inside the grid and hold `ALIVE`. -/
def count_neighbours (grid : GridT) (location : Point) : Nat :=
  List.countP (fun n => valid_loc grid n && decide (cellAt grid n = ALIVE))
    (neighbours location)

/-- The per-cell rule applied inside `get_next_iteration`'s loop body:
alive with 2 or 3 living neighbours stays alive, dead with exactly 3
becomes alive, anything else becomes dead.  Neighbours are counted on
`prev`, the pre-step grid. -/
def next_cell (prev : GridT) (x y : Nat) : Char :=
  let living := count_neighbours prev ⟨(x : Int), (y : Int)⟩
  if cellAtNat prev x y = ALIVE ∧ (living = 2 ∨ living = 3) then ALIVE
  else if cellAtNat prev x y = DEAD ∧ living = 3 then ALIVE
  else DEAD

/-- The assignment `next_iter[y][x] = c`. -/
def setCell (g : GridT) (y x : Nat) (c : Char) : GridT :=
  g.set y ((g.getD y []).set x c)

/-- The two grids live in `get_next_iteration`: `prev` models
`prev_iter` (aliasing the input grid) and `next` models `next_iter`
(the deep copy that receives every write). -/
structure StepState where
  prev : GridT
  next : GridT
deriving DecidableEq

/-- Source `ConwaysGameOfLife.get_next_iteration`, operationally: start
from `prev_iter = grid` and `next_iter = deepcopy(grid)`, then for each
`y < rows` and `x < cols` write the rule's output into `next_iter`,
reading neighbour counts from `prev_iter`.  `rows`/`cols` are the
dimensions of the game's grid (`self.grid.rows`, `self.grid.cols`). -/
def step_writes (rows cols : Nat) (grid : GridT) : StepState :=
  (List.range rows).foldl
    (fun st y =>
      (List.range cols).foldl
        (fun st2 x => ⟨st2.prev, setCell st2.next y x (next_cell st2.prev x y)⟩)
        st)
    ⟨grid, grid⟩

/-- The grid returned by `get_next_iteration`. -/
def get_next_iteration (rows cols : Nat) (grid : GridT) : GridT :=
  (step_writes rows cols grid).next

/-- Appending to the `deque(maxlen=ITERATION_HISTORY_SIZE)`: when the
deque is full the oldest element (the head) is evicted first. -/
def histAppend (h : List GridT) (g : GridT) : List GridT :=
  if h.length = ITERATION_HISTORY_SIZE then h.drop 1 ++ [g] else h ++ [g]

/-- Observable outcome of `run_conways_game`: the generations yielded,
the final `_iteration_history`, the final `_total_iterations`, and the
final `_repeated_pattern_halted_the_game` flag. -/
structure RunResult where
  emitted : List GridT
  history : List GridT
  total_iterations : Nat
  repeated_halted : Bool
deriving DecidableEq

/-- The `for _ in range(iterations)` loop of `run_conways_game`: derive
the next generation, halt (flag set, nothing emitted or appended, the
counter untouched) when the history holds exactly
`MAX_COPIES_IN_HISTORY` copies of it, otherwise count it, yield it and
append it to the history. -/
def run_loop (rows cols : Nat) : Nat → GridT → List GridT → Nat → RunResult
  | 0, _, hist, iters => ⟨[], hist, iters, false⟩
  | n + 1, current, hist, iters =>
    let nextIt := get_next_iteration rows cols current
    if hist.count nextIt = MAX_COPIES_IN_HISTORY then
      ⟨[], hist, iters, true⟩
    else
      let r := run_loop rows cols n nextIt (histAppend hist nextIt) (iters + 1)
      ⟨nextIt :: r.emitted, r.history, r.total_iterations, r.repeated_halted⟩

/-- Source `ConwaysGameOfLife.run_conways_game`: append the initial
generation to the (empty) history, yield it without counting it, then
run the loop.  `rows`/`cols` are the fixed dimensions of `self.grid`,
and `initial` is `self.grid.cells`. -/
def run_conways_game (rows cols : Nat) (initial : GridT) (iterations : Nat) : RunResult :=
  let hist0 := histAppend [] initial
  let r := run_loop rows cols iterations initial hist0 0
  ⟨initial :: r.emitted, r.history, r.total_iterations, r.repeated_halted⟩

/-- Python's `str.replace(' ', '')` on the pattern, as a character list:
every space character is removed. -/
def removeSpaces (cs : List Char) : List Char :=
  cs.filter (fun c => ¬ c = ' ')

/-- Helper for `splitlines`: accumulate the current line (reversed). -/
def splitlinesAux : List Char → List Char → List (List Char)
  | [], acc => if acc.isEmpty then [] else [acc.reverse]
  | c :: rest, acc =>
    if c = '\n' then acc.reverse :: splitlinesAux rest []
    else splitlinesAux rest (c :: acc)

/-- Python's `str.splitlines()` for strings whose only line break is
`'\n'`: split at newlines, with no trailing empty line for a trailing
newline, and no lines at all for the empty string. -/
def splitlines (cs : List Char) : List (List Char) :=
  splitlinesAux cs []

/-- The length of the longest row, `len(max(cells, key=len))`. -/
def maxRowLen (cells : List (List Char)) : Nat :=
  (cells.map List.length).foldl Nat.max 0

/-- Source `Grid.pad_cells`: every row shorter than the longest row is
extended with dead cells to the longest row's length.  On an empty list
of rows the source's `max(cells, key=len)` raises, modelled as `none`. -/
def pad_cells (cells : List (List Char)) : Option (List (List Char)) :=
  match cells with
  | [] => none
  | _ :: _ =>
    let longest := maxRowLen cells
    some (cells.map (fun row =>
      if row.length = longest then row
      else row ++ List.replicate (longest - row.length) DEAD))

/-- Source `Grid.cells_to_grid`.  A `none` pattern, or the empty string
(falsy in Python), takes the random-arrangement branch, modelled by the
`randomCells` parameter; otherwise spaces are removed, the pattern is
split into lines, empty lines are dropped, and the rows are padded. -/
def cells_to_grid (randomCells : GridT) (cell_pattern : Option String) : Option GridT :=
  match cell_pattern with
  | none => some randomCells
  | some p =>
    if p = "" then some randomCells
    else
      let raw := splitlines (removeSpaces p.data)
      let compact := raw.filter (fun r => ¬ r = [])
      pad_cells compact

/-- Source `Grid.__init__`: cells from `cells_to_grid`, `cols` from the
first row's length, `rows` from the number of rows. -/
structure GridS where
  cells : GridT
  cols : Nat
  rows : Nat
deriving DecidableEq

/-- Grid construction (`Grid(cell_pattern)`), `none` when it raises. -/
def mkGrid (randomCells : GridT) (cell_pattern : Option String) : Option GridS :=
  match cells_to_grid randomCells cell_pattern with
  | none => none
  | some cs => some ⟨cs, (cs.getD 0 []).length, cs.length⟩

/-- The grid `g` is rectangular with the given dimensions: `rows` rows,
each of length `cols`. -/
def rect (g : GridT) (rows cols : Nat) : Prop :=
  g.length = rows ∧ ∀ i, i < rows → (g.getD i []).length = cols

/-- Spec-side description of the Moore neighbourhood: the eight offsets
(N, S, E, W and the four diagonals), in the source's listing order. -/
def mooreOffsets : List (Int × Int) :=
  [(0, -1), (1, 0), (0, 1), (-1, 0), (-1, -1), (1, -1), (1, 1), (-1, 1)]

/-- Spec-side neighbour count: the number of the up-to-8 Moore
neighbourhood positions of `p` that are within the bounds of the
`rows × cols` grid and hold `ALIVE`.  Out-of-bounds positions are
excluded (no wraparound). -/
def mooreAliveCount (g : GridT) (rows cols : Nat) (p : Point) : Nat :=
  List.countP (fun d =>
      let q : Point := ⟨p.x + d.1, p.y + d.2⟩
      decide (0 ≤ q.x) && decide (q.x < (cols : Int)) &&
      decide (0 ≤ q.y) && decide (q.y < (rows : Int)) &&
      decide (cellAt g q = ALIVE))
    mooreOffsets

/-- Spec-side transition rule on a two-state cell: an `Alive` cell with
2 or 3 living neighbours stays `Alive`, a `Dead` cell with exactly 3
living neighbours becomes `Alive`, every other cell becomes `Dead`. -/
def ruleNext (c : Char) (living : Nat) : Char :=
  if c = ALIVE then (if living = 2 ∨ living = 3 then ALIVE else DEAD)
  else (if living = 3 then ALIVE else DEAD)

/-- The ragged pattern of the padding test, as a single string. -/
def raggedPattern : String := "*-*-*\n-**\n*--\n-\n-**"

/-- The ragged pattern of the padding test, as raw rows of cells. -/
def raggedRows : List (List Char) :=
  [['*', '-', '*', '-', '*'], ['-', '*', '*'], ['*', '-', '-'], ['-'], ['-', '*', '*']]

/-- The expected 5 by 5 grid after right-padding the ragged rows. -/
def raggedExpected : GridT :=
  [ ['*', '-', '*', '-', '*'],
    ['-', '*', '*', '-', '-'],
    ['*', '-', '-', '-', '-'],
    ['-', '-', '-', '-', '-'],
    ['-', '*', '*', '-', '-'] ]

theorem run_loop_of_no_repeat (rows cols : Nat) :
    ∀ (n : Nat) (current : GridT) (hist : List GridT) (iters : Nat),
      (run_loop rows cols n current hist iters).repeated_halted = false →
      (run_loop rows cols n current hist iters).total_iterations = iters + n ∧
      (run_loop rows cols n current hist iters).emitted.length = n := by
  intro n
  induction n with
  | zero => intro current hist iters _; simp [run_loop]
  | succ n ih =>
    intro current hist iters h
    by_cases hc :
        hist.count (get_next_iteration rows cols current) = MAX_COPIES_IN_HISTORY
    · simp [run_loop, hc] at h
    · simp only [run_loop, if_neg hc] at h ⊢
      obtain ⟨h1, h2⟩ := ih _ _ (iters + 1) h
      simp [h1, h2]
      omega

theorem histAppend_length_le (h : List GridT) (g : GridT)
    (hl : h.length ≤ ITERATION_HISTORY_SIZE) :
    (histAppend h g).length ≤ ITERATION_HISTORY_SIZE := by
  unfold histAppend
  by_cases hfull : h.length = ITERATION_HISTORY_SIZE
  · simp [hfull, ITERATION_HISTORY_SIZE]
  · rw [if_neg hfull]
    simp only [List.length_append, List.length_singleton]
    omega

theorem run_loop_history_length (rows cols : Nat) :
    ∀ (n : Nat) (current : GridT) (hist : List GridT) (iters : Nat),
      hist.length ≤ ITERATION_HISTORY_SIZE →
      (run_loop rows cols n current hist iters).history.length ≤
        ITERATION_HISTORY_SIZE := by
  intro n
  induction n with
  | zero => intro current hist iters hl; simpa [run_loop] using hl
  | succ n ih =>
    intro current hist iters hl
    by_cases hc :
        hist.count (get_next_iteration rows cols current) = MAX_COPIES_IN_HISTORY
    · simpa [run_loop, hc] using hl
    · simp only [run_loop, if_neg hc]
      exact ih _ _ _ (histAppend_length_le _ _ hl)

theorem histAppend_count_le (h : List GridT) (c : GridT)
    (hInv : ∀ x, h.count x ≤ MAX_COPIES_IN_HISTORY)
    (hne : h.count c ≠ MAX_COPIES_IN_HISTORY) :
    ∀ x, (histAppend h c).count x ≤ MAX_COPIES_IN_HISTORY := by
  intro x
  have hdrop : (h.drop 1).count x ≤ h.count x :=
    (List.drop_sublist 1 h).count_le x
  have hx := hInv x
  have hcc := hInv c
  unfold histAppend
  by_cases hcx : c = x
  · subst hcx
    by_cases hfull : h.length = ITERATION_HISTORY_SIZE
    · simp only [if_pos hfull, List.count_append, List.count_singleton, beq_self_eq_true,
        if_pos]
      omega
    · simp only [if_neg hfull, List.count_append, List.count_singleton, beq_self_eq_true,
        if_pos]
      omega
  · have hone : List.count x [c] = 0 := by
      simp [List.count_singleton, hcx]
    by_cases hfull : h.length = ITERATION_HISTORY_SIZE
    · simp only [if_pos hfull, List.count_append, hone]
      omega
    · simp only [if_neg hfull, List.count_append, hone]
      omega

theorem run_loop_count_le (rows cols : Nat) :
    ∀ (n : Nat) (current : GridT) (hist : List GridT) (iters : Nat),
      (∀ x, hist.count x ≤ MAX_COPIES_IN_HISTORY) →
      ∀ x, (run_loop rows cols n current hist iters).history.count x ≤
        MAX_COPIES_IN_HISTORY := by
  intro n
  induction n with
  | zero => intro current hist iters hInv x; simpa [run_loop] using hInv x
  | succ n ih =>
    intro current hist iters hInv x
    by_cases hc :
        hist.count (get_next_iteration rows cols current) = MAX_COPIES_IN_HISTORY
    · simpa [run_loop, hc] using hInv x
    · simp only [run_loop, if_neg hc]
      exact ih _ _ _ (histAppend_count_le _ _ hInv hc) x

theorem foldl_inner_prev (y : Nat) (l : List Nat) :
    ∀ st : StepState,
      (l.foldl (fun st2 x => ⟨st2.prev, setCell st2.next y x (next_cell st2.prev x y)⟩)
        st).prev = st.prev := by
  induction l with
  | nil => intro st; rfl
  | cons a l ih => intro st; simpa using ih _

theorem step_writes_prev (rows cols : Nat) (g : GridT) :
    (step_writes rows cols g).prev = g := by
  unfold step_writes
  generalize hst : (⟨g, g⟩ : StepState) = st
  have hg : st.prev = g := by rw [← hst]
  clear hst
  induction List.range rows generalizing st with
  | nil => simpa using hg
  | cons a l ih =>
    simp only [List.foldl_cons]
    exact ih _ (by simpa [foldl_inner_prev] using hg)

/-- Claim C2: whenever the candidate next generation is structurally
equal to `MAX_COPIES_IN_HISTORY` snapshots currently in the history
buffer — checked before appending — the loop halts with the
repeated-pattern flag set, emits nothing further (the candidate is not
yielded), leaves the history unchanged (the candidate is not appended)
and leaves the completed-iteration counter unchanged. -/
theorem run_halts_on_repeated_pattern (rows cols n iters : Nat) (current : GridT)
    (hist : List GridT)
    (h : hist.count (get_next_iteration rows cols current) = MAX_COPIES_IN_HISTORY) :
    run_loop rows cols (n + 1) current hist iters = ⟨[], hist, iters, true⟩ := by
  simp only [run_loop, if_pos h]

/-- Witness for C2: a 1 by 1 dead grid is a fixed point of the step, so
a history holding four copies of it halts the loop at once. -/
theorem run_halts_on_repeated_pattern_witness :
    ([[[DEAD]], [[DEAD]], [[DEAD]], [[DEAD]]] : List GridT).count
        (get_next_iteration 1 1 [[DEAD]]) = MAX_COPIES_IN_HISTORY ∧
    run_loop 1 1 (5 + 1) [[DEAD]] [[[DEAD]], [[DEAD]], [[DEAD]], [[DEAD]]] 7 =
      ⟨[], [[[DEAD]], [[DEAD]], [[DEAD]], [[DEAD]]], 7, true⟩ :=
  ⟨by decide, run_halts_on_repeated_pattern 1 1 5 7 [[DEAD]]
    [[[DEAD]], [[DEAD]], [[DEAD]], [[DEAD]]] (by decide)⟩

/-- Claim C4: if the repeated-pattern condition is never reached (the
halting flag ends false), a run with `maxIterations = N` emits exactly
`N` generations beyond the initial one and ends with the
completed-iteration counter equal to `N`. -/
theorem run_iteration_limit (rows cols N : Nat) (g : GridT)
    (h : (run_conways_game rows cols g N).repeated_halted = false) :
    (run_conways_game rows cols g N).emitted.length = N + 1 ∧
    (run_conways_game rows cols g N).total_iterations = N := by
  unfold run_conways_game at h ⊢
  obtain ⟨h1, h2⟩ := run_loop_of_no_repeat rows cols N g (histAppend [] g) 0 h
  simp [h1, h2]

/-- Witness for C4: two iterations of the 1 by 1 dead grid never see
four history copies, so the run emits 3 grids and counts 2 iterations. -/
theorem run_iteration_limit_witness :
    (run_conways_game 1 1 [[DEAD]] 2).repeated_halted = false ∧
    (run_conways_game 1 1 [[DEAD]] 2).emitted.length = 2 + 1 ∧
    (run_conways_game 1 1 [[DEAD]] 2).total_iterations = 2 :=
  ⟨by decide, run_iteration_limit 1 1 2 [[DEAD]] (by decide)⟩

/-- Claim C5: the first element produced by the run is the initial grid
itself; the run is the initial grid followed by the loop started with
the counter at 0 and with the initial generation already appended to
the (previously empty) history; with zero iterations the counter stays
0 and the history holds exactly the initial generation. -/
theorem run_first_element (rows cols n : Nat) (g : GridT) :
    (run_conways_game rows cols g n).emitted.head? = some g ∧
    run_conways_game rows cols g n =
      ⟨g :: (run_loop rows cols n g [g] 0).emitted,
       (run_loop rows cols n g [g] 0).history,
       (run_loop rows cols n g [g] 0).total_iterations,
       (run_loop rows cols n g [g] 0).repeated_halted⟩ ∧
    (run_conways_game rows cols g 0).history = [g] ∧
    (run_conways_game rows cols g 0).total_iterations = 0 := by
  have happ : histAppend ([] : List GridT) g = [g] := by
    simp [histAppend, ITERATION_HISTORY_SIZE]
  refine ⟨?_, ?_, ?_, ?_⟩ <;>
    simp [run_conways_game, happ, run_loop]

/-- Claim C8: the history buffer never exceeds
`ITERATION_HISTORY_SIZE` snapshots: an append to a full buffer evicts
the oldest snapshot (the head) first, an append preserves the bound,
and both the loop and a whole run keep the bound. -/
theorem history_capacity_bound (rows cols n iters : Nat) (g c : GridT)
    (hist : List GridT)
    (hlen : hist.length ≤ ITERATION_HISTORY_SIZE) :
    (histAppend hist c).length ≤ ITERATION_HISTORY_SIZE ∧
    (hist.length = ITERATION_HISTORY_SIZE → histAppend hist c = hist.drop 1 ++ [c]) ∧
    (run_loop rows cols n g hist iters).history.length ≤ ITERATION_HISTORY_SIZE ∧
    (run_conways_game rows cols g n).history.length ≤ ITERATION_HISTORY_SIZE := by
  refine ⟨histAppend_length_le hist c hlen, ?_, ?_, ?_⟩
  · intro hfull
    simp [histAppend, hfull]
  · exact run_loop_history_length rows cols n g hist iters hlen
  · unfold run_conways_game
    have h1 : (histAppend ([] : List GridT) g).length ≤ ITERATION_HISTORY_SIZE := by
      simp [histAppend, ITERATION_HISTORY_SIZE]
    exact run_loop_history_length rows cols n g _ 0 h1

/-- Witness for C8: the bound holds on a concrete short run. -/
theorem history_capacity_bound_witness :
    (([[[DEAD]]] : List GridT).length ≤ ITERATION_HISTORY_SIZE) ∧
    ((histAppend [[[DEAD]]] [[DEAD]]).length ≤ ITERATION_HISTORY_SIZE ∧
      (([[[DEAD]]] : List GridT).length = ITERATION_HISTORY_SIZE →
        histAppend [[[DEAD]]] [[DEAD]] = ([[[DEAD]]] : List GridT).drop 1 ++ [[[DEAD]]]) ∧
      (run_loop 1 1 3 [[DEAD]] [[[DEAD]]] 0).history.length ≤ ITERATION_HISTORY_SIZE ∧
      (run_conways_game 1 1 [[DEAD]] 3).history.length ≤ ITERATION_HISTORY_SIZE) :=
  ⟨by decide, history_capacity_bound 1 1 3 0 [[DEAD]] [[DEAD]] [[[DEAD]]] (by decide)⟩

/-- Claim C10: under the inductive invariant that no grid value occurs
more than `MAX_COPIES_IN_HISTORY` times in the history, the candidate's
repeat count is at most the threshold, so testing it for equality with
the threshold is equivalent to testing that it has reached the
threshold; the invariant holds for the initial one-element history,
is preserved by the guarded append, and is preserved by the loop. -/
theorem repeat_count_threshold (rows cols n iters : Nat) (g c : GridT)
    (hist : List GridT)
    (hInv : ∀ x, hist.count x ≤ MAX_COPIES_IN_HISTORY) :
    hist.count c ≤ MAX_COPIES_IN_HISTORY ∧
    ((hist.count c = MAX_COPIES_IN_HISTORY) ↔
      (MAX_COPIES_IN_HISTORY ≤ hist.count c)) ∧
    (hist.count c ≠ MAX_COPIES_IN_HISTORY →
      ∀ x, (histAppend hist c).count x ≤ MAX_COPIES_IN_HISTORY) ∧
    (∀ x, (histAppend [] g).count x ≤ MAX_COPIES_IN_HISTORY) ∧
    (∀ x, ((run_loop rows cols n g hist iters).history).count x ≤
      MAX_COPIES_IN_HISTORY) := by
  have hc := hInv c
  refine ⟨hc, ⟨fun h => h.ge, fun h => le_antisymm hc h⟩, ?_, ?_, ?_⟩
  · intro hne
    exact histAppend_count_le hist c hInv hne
  · intro x
    have : histAppend ([] : List GridT) g = [g] := by
      simp [histAppend, ITERATION_HISTORY_SIZE]
    rw [this]
    simp [List.count_singleton, MAX_COPIES_IN_HISTORY]
    split <;> omega
  · exact run_loop_count_le rows cols n g hist iters hInv

/-- Witness for C10: the empty history satisfies the invariant. -/
theorem repeat_count_threshold_witness :
    (∀ x : GridT, ([] : List GridT).count x ≤ MAX_COPIES_IN_HISTORY) ∧
    (([] : List GridT).count [[DEAD]] ≤ MAX_COPIES_IN_HISTORY ∧
      ((([] : List GridT).count [[DEAD]] = MAX_COPIES_IN_HISTORY) ↔
        (MAX_COPIES_IN_HISTORY ≤ ([] : List GridT).count [[DEAD]])) ∧
      (([] : List GridT).count [[DEAD]] ≠ MAX_COPIES_IN_HISTORY →
        ∀ x, (histAppend [] [[DEAD]]).count x ≤ MAX_COPIES_IN_HISTORY) ∧
      (∀ x, (histAppend [] [[ALIVE]]).count x ≤ MAX_COPIES_IN_HISTORY) ∧
      (∀ x, ((run_loop 1 1 2 [[ALIVE]] [] 0).history).count x ≤
        MAX_COPIES_IN_HISTORY)) :=
  have hInv : ∀ x : GridT, ([] : List GridT).count x ≤ MAX_COPIES_IN_HISTORY := by
    intro x
    simp [MAX_COPIES_IN_HISTORY]
  ⟨hInv, repeat_count_threshold 1 1 2 0 [[ALIVE]] [[DEAD]] [] hInv⟩

/-- Counterexample to C6 as stated: constructing a Grid from the empty
pattern does not fail — the empty string is falsy in the source's
`if cell_pattern:` guard, so construction silently substitutes the
random arrangement (here the parameter `[[DEAD]]`) and succeeds. -/
theorem empty_pattern_takes_random_branch :
    cells_to_grid [[DEAD]] (some "") = some [[DEAD]] := by decide

/-- Claim C6 (amended): constructing a Grid from a nonempty pattern
string whose lines are all empty after whitespace removal fails with a
construction error (the padding step raises on zero rows); the empty
pattern string instead takes the no-pattern branch and yields the
random arrangement. -/
theorem blank_pattern_construction_fails (rc : GridT) (p : String)
    (hne : ¬ p = "")
    (hblank : (splitlines (removeSpaces p.data)).filter (fun r => ¬ r = []) = []) :
    cells_to_grid rc (some p) = none := by
  show (if p = "" then some rc
      else pad_cells ((splitlines (removeSpaces p.data)).filter (fun r => ¬ r = []))) =
    none
  rw [if_neg hne, hblank]
  rfl

/-- Witness for C6 (amended): a single-space pattern is nonempty, has
no nonempty line once spaces are removed, and fails to construct. -/
theorem blank_pattern_construction_fails_witness :
    (¬ (" " : String) = "") ∧
    ((splitlines (removeSpaces (" " : String).data)).filter (fun r => ¬ r = []) = []) ∧
    cells_to_grid [[DEAD]] (some " ") = none :=
  ⟨by decide, by decide,
    blank_pattern_construction_fails [[DEAD]] " " (by decide) (by decide)⟩

theorem foldl_max_init_le (l : List Nat) : ∀ b : Nat, b ≤ l.foldl Nat.max b := by
  induction l with
  | nil => intro b; exact Nat.le_refl b
  | cons a l ih =>
    intro b
    exact Nat.le_trans (Nat.le_max_left b a) (ih (Nat.max b a))

theorem mem_le_foldl_max (l : List Nat) :
    ∀ (b x : Nat), x ∈ l → x ≤ l.foldl Nat.max b := by
  induction l with
  | nil => intro b x hx; cases hx
  | cons a l ih =>
    intro b x hx
    rcases List.mem_cons.mp hx with h | h
    · subst h
      exact Nat.le_trans (Nat.le_max_right b x) (foldl_max_init_le l (Nat.max b x))
    · exact ih (Nat.max b a) x h

theorem row_len_le_maxRowLen (cells : List (List Char)) (row : List Char)
    (h : row ∈ cells) : row.length ≤ maxRowLen cells := by
  unfold maxRowLen
  exact mem_le_foldl_max (cells.map List.length) 0 row.length
    (List.mem_map_of_mem List.length h)

/-- Claim C7: for a nonempty list of input rows, `pad_cells` succeeds
and right-pads each row with dead cells up to the longest row's length,
so every resulting row has that common length; in particular the ragged
pattern from the claim constructs a 5 by 5 grid with the shorter rows
right-padded with dead cells. -/
theorem pad_cells_pads_to_longest (cells : List (List Char)) (hne : ¬ cells = []) :
    (∃ padded, pad_cells cells = some padded ∧
      padded.length = cells.length ∧
      (∀ i, i < cells.length →
        (padded.getD i []).length = maxRowLen cells ∧
        padded.getD i [] =
          cells.getD i [] ++
            List.replicate (maxRowLen cells - (cells.getD i []).length) DEAD)) ∧
    mkGrid [[DEAD]] (some raggedPattern) = some ⟨raggedExpected, 5, 5⟩ := by
  constructor
  · match cells, hne with
    | c :: cs, _ =>
      refine ⟨_, rfl, by simp, ?_⟩
      intro i hi
      set cells := c :: cs with hcells
      set L := maxRowLen cells with hL
      have hrow : ∀ row ∈ cells, (if row.length = L then row
          else row ++ List.replicate (L - row.length) DEAD) =
          row ++ List.replicate (L - row.length) DEAD := by
        intro row _
        by_cases hlen : row.length = L
        · simp [hlen]
        · simp [hlen]
      have hmem : cells.getD i [] ∈ cells := by
        have : cells.getD i [] = cells[i] := List.getD_eq_getElem cells [] hi
        rw [this]
        exact List.getElem_mem hi
      have hle : (cells.getD i []).length ≤ L :=
        row_len_le_maxRowLen cells _ hmem
      have hget : (cells.map (fun row => if row.length = L then row
          else row ++ List.replicate (L - row.length) DEAD)).getD i [] =
          cells.getD i [] ++ List.replicate (L - (cells.getD i []).length) DEAD := by
        have hi2 : i < (cells.map (fun row => if row.length = L then row
            else row ++ List.replicate (L - row.length) DEAD)).length := by
          simpa using hi
        rw [List.getD_eq_getElem _ [] hi2, List.getElem_map,
          List.getD_eq_getElem cells [] hi]
        exact hrow cells[i] (List.getElem_mem hi)
      refine ⟨?_, hget⟩
      rw [hget]
      simp only [List.length_append, List.length_replicate]
      omega
  · decide

/-- Witness for C7: the padding theorem applied to the claim's ragged
rows. -/
theorem pad_cells_pads_to_longest_witness :
    (¬ raggedRows = []) ∧
    ((∃ padded, pad_cells raggedRows = some padded ∧
      padded.length = raggedRows.length ∧
      (∀ i, i < raggedRows.length →
        (padded.getD i []).length = maxRowLen raggedRows ∧
        padded.getD i [] =
          raggedRows.getD i [] ++
            List.replicate (maxRowLen raggedRows - (raggedRows.getD i []).length)
              DEAD)) ∧
    mkGrid [[DEAD]] (some raggedPattern) = some ⟨raggedExpected, 5, 5⟩) :=
  ⟨by decide, pad_cells_pads_to_longest raggedRows (by decide)⟩

/-- Counterexample to C9 as stated: the returned grid is not always a
distinct value from the input — a 2 by 2 block of alive cells is a
still-life, so the next generation equals the input cell-for-cell. -/
theorem still_life_next_equals_input :
    get_next_iteration 2 2 [[ALIVE, ALIVE], [ALIVE, ALIVE]] =
      [[ALIVE, ALIVE], [ALIVE, ALIVE]] := by decide

/-- Claim C9 (amended): the step never writes to its input: every write
of the loop targets the fresh copy (`next_iter`), while the component
aliasing the input (`prev_iter`) — the one all neighbour counts are
read from — is unchanged at the end, so the input grid's dimensions and
cells are unchanged and prior generations retained in history are never
mutated; the returned grid is the fresh copy, which may be equal to the
input as a value (still-lifes). -/
theorem step_never_mutates_input (rows cols : Nat) (g : GridT) :
    (step_writes rows cols g).prev = g ∧
    get_next_iteration rows cols g = (step_writes rows cols g).next :=
  ⟨step_writes_prev rows cols g, rfl⟩

theorem neighbours_eq_map_offsets (p : Point) :
    neighbours p = mooreOffsets.map (fun d => ⟨p.x + d.1, p.y + d.2⟩) := by
  simp only [neighbours, mooreOffsets, List.map_cons, List.map_nil, Point.mk.injEq]
  simp [Int.sub_eq_add_neg]

theorem valid_loc_eq_bounds (g : GridT) (rows cols : Nat)
    (hg : rect g rows cols) (hrows : 1 ≤ rows) (q : Point) :
    valid_loc g q =
      (decide (0 ≤ q.x) && decide (q.x < (cols : Int)) &&
        decide (0 ≤ q.y) && decide (q.y < (rows : Int))) := by
  obtain ⟨hlen, hrl⟩ := hg
  have h0 : (g.getD 0 []).length = cols := hrl 0 hrows
  unfold valid_loc
  rw [hlen, h0]
  rcases Classical.em (0 ≤ q.x) with hx0 | hx0 <;>
    rcases Classical.em (q.x < (cols : Int)) with hx1 | hx1 <;>
      rcases Classical.em (0 ≤ q.y) with hy0 | hy0 <;>
        rcases Classical.em (q.y < (rows : Int)) with hy1 | hy1 <;>
          simp [hx0, hx1, hy0, hy1]

theorem count_neighbours_eq_moore (g : GridT) (rows cols : Nat) (p : Point)
    (hg : rect g rows cols) (hrows : 1 ≤ rows) :
    count_neighbours g p = mooreAliveCount g rows cols p := by
  unfold count_neighbours mooreAliveCount
  rw [neighbours_eq_map_offsets, List.countP_map]
  refine List.countP_congr ?_
  intro d _
  simp only [Function.comp]
  rw [valid_loc_eq_bounds g rows cols hg hrows]

/-- Claim C3: for every rectangular grid with at least one row and one
column and every in-bounds position, `count_neighbours` returns a value
in `[0, 8]` equal to the exact number of the up-to-8 Moore
neighbourhood positions that are within bounds and hold `ALIVE`
(out-of-bounds neighbours excluded, no wraparound). -/
theorem count_neighbours_correct (g : GridT) (rows cols : Nat) (p : Point)
    (hg : rect g rows cols) (hrows : 1 ≤ rows) (hcols : 1 ≤ cols)
    (hpx : 0 ≤ p.x ∧ p.x < (cols : Int)) (hpy : 0 ≤ p.y ∧ p.y < (rows : Int)) :
    count_neighbours g p ≤ 8 ∧
    count_neighbours g p = mooreAliveCount g rows cols p := by
  constructor
  · have h8 : (neighbours p).length = 8 := by simp [neighbours]
    calc count_neighbours g p ≤ (neighbours p).length := List.countP_le_length _
      _ = 8 := h8
  · exact count_neighbours_eq_moore g rows cols p hg hrows

/-- Witness for C3: the 3 by 3 grid of the repository's own neighbour
counting test, at its centre position. -/
theorem count_neighbours_correct_witness :
    rect [['*', '-', '*'], ['-', '*', '*'], ['*', '-', '-']] 3 3 ∧
    (1 : Nat) ≤ 3 ∧
    (0 ≤ (1 : Int) ∧ (1 : Int) < ((3 : Nat) : Int)) ∧
    count_neighbours [['*', '-', '*'], ['-', '*', '*'], ['*', '-', '-']] ⟨1, 1⟩ ≤ 8 ∧
    count_neighbours [['*', '-', '*'], ['-', '*', '*'], ['*', '-', '-']] ⟨1, 1⟩ =
      mooreAliveCount [['*', '-', '*'], ['-', '*', '*'], ['*', '-', '-']] 3 3 ⟨1, 1⟩ :=
  ⟨by constructor <;> decide, by decide, by decide,
    count_neighbours_correct [['*', '-', '*'], ['-', '*', '*'], ['*', '-', '-']] 3 3
      ⟨1, 1⟩ ⟨by decide, by decide⟩ (by decide) (by decide)
      ⟨by decide, by decide⟩ ⟨by decide, by decide⟩⟩

theorem setCell_getD (g : GridT) (y x : Nat) (c : Char) (i : Nat) :
    (setCell g y x c).getD i [] =
      if y = i ∧ y < g.length then (g.getD y []).set x c else g.getD i [] := by
  unfold setCell
  rw [List.getD_eq_getElem?_getD, List.getElem?_set]
  by_cases h : y = i
  · subst h
    by_cases h2 : y < g.length
    · simp [h2]
    · simp only [h2, and_false, if_false, if_true, if_neg h2]
      rw [List.getD_eq_default g [] (Nat.le_of_not_lt h2)]
      simp
  · have : ¬ (y = i ∧ y < g.length) := fun hc => h hc.1
    rw [if_neg h, if_neg this, ← List.getD_eq_getElem?_getD]

theorem setCell_rect (g : GridT) (rows cols y x : Nat) (c : Char)
    (hg : rect g rows cols) (hy : y < rows) :
    rect (setCell g y x c) rows cols := by
  obtain ⟨hlen, hrow⟩ := hg
  constructor
  · unfold setCell
    rw [List.length_set]
    exact hlen
  · intro i hi
    rw [setCell_getD]
    by_cases h : y = i ∧ y < g.length
    · rw [if_pos h, List.length_set]
      exact hrow y hy
    · rw [if_neg h]
      exact hrow i hi

theorem cellAtNat_setCell_same (g : GridT) (rows cols y x : Nat) (c : Char)
    (hg : rect g rows cols) (hy : y < rows) (hx : x < cols) :
    cellAtNat (setCell g y x c) x y = c := by
  unfold cellAtNat
  rw [setCell_getD]
  have hylen : y < g.length := hg.1 ▸ hy
  rw [if_pos ⟨rfl, hylen⟩]
  have hxlen : x < (g.getD y []).length := by
    rw [hg.2 y hy]
    exact hx
  rw [List.getD_eq_getElem?_getD, List.getElem?_set]
  have hxlen2 : x < (g[y]?.getD []).length := by
    rw [← List.getD_eq_getElem?_getD]
    exact hxlen
  simp [hxlen2]

theorem cellAtNat_setCell_other (g : GridT) (y x : Nat) (c : Char) (x' y' : Nat)
    (h : ¬ (y' = y ∧ x' = x)) :
    cellAtNat (setCell g y x c) x' y' = cellAtNat g x' y' := by
  unfold cellAtNat
  rw [setCell_getD]
  by_cases hyy : y = y' ∧ y < g.length
  · rw [if_pos hyy]
    have hxx : x ≠ x' := by
      intro hc
      exact h ⟨hyy.1.symm, hc.symm⟩
    rw [List.getD_eq_getElem?_getD, List.getElem?_set_ne hxx,
      ← List.getD_eq_getElem?_getD, hyy.1]
  · rw [if_neg hyy]

theorem inner_fold_spec (g : GridT) (rows cols y : Nat) (hy : y < rows) :
    ∀ (n : Nat), n ≤ cols → ∀ acc : GridT, rect acc rows cols →
      rect ((List.range n).foldl (fun a x => setCell a y x (next_cell g x y)) acc)
        rows cols ∧
      (∀ x' y', x' < cols → y' < rows →
        cellAtNat
            ((List.range n).foldl (fun a x => setCell a y x (next_cell g x y)) acc)
            x' y' =
          if y' = y ∧ x' < n then next_cell g x' y else cellAtNat acc x' y') := by
  intro n
  induction n with
  | zero =>
    intro _ acc hacc
    refine ⟨by simpa using hacc, ?_⟩
    intro x' y' _ _
    simp
  | succ n ih =>
    intro hn acc hacc
    have hn' : n ≤ cols := Nat.le_of_succ_le hn
    obtain ⟨ihrect, ihread⟩ := ih hn' acc hacc
    rw [List.range_succ, List.foldl_append]
    simp only [List.foldl_cons, List.foldl_nil]
    constructor
    · exact setCell_rect _ rows cols y n _ ihrect hy
    · intro x' y' hx' hy'
      by_cases hsame : y' = y ∧ x' = n
      · rw [hsame.1, hsame.2]
        rw [cellAtNat_setCell_same _ rows cols y n _ ihrect hy (Nat.lt_of_succ_le hn)]
        simp [Nat.lt_succ_self]
      · rw [cellAtNat_setCell_other _ y n _ x' y' hsame, ihread x' y' hx' hy']
        by_cases hyy : y' = y
        · subst hyy
          by_cases hlt : x' < n
          · simp [hlt, Nat.lt_succ_of_lt hlt]
          · have hne : x' ≠ n := fun hc => hsame ⟨rfl, hc⟩
            have hnlt : ¬ x' < n + 1 := by omega
            simp [hlt, hnlt]
        · simp [hyy]

theorem outer_fold_spec (g : GridT) (rows cols : Nat) :
    ∀ (m : Nat), m ≤ rows → ∀ acc : GridT, rect acc rows cols →
      rect ((List.range m).foldl
          (fun a y => (List.range cols).foldl
            (fun a2 x => setCell a2 y x (next_cell g x y)) a) acc) rows cols ∧
      (∀ x' y', x' < cols → y' < rows →
        cellAtNat ((List.range m).foldl
            (fun a y => (List.range cols).foldl
              (fun a2 x => setCell a2 y x (next_cell g x y)) a) acc) x' y' =
          if y' < m then next_cell g x' y' else cellAtNat acc x' y') := by
  intro m
  induction m with
  | zero =>
    intro _ acc hacc
    refine ⟨by simpa using hacc, ?_⟩
    intro x' y' _ _
    simp
  | succ m ih =>
    intro hm acc hacc
    have hm' : m ≤ rows := Nat.le_of_succ_le hm
    obtain ⟨ihrect, ihread⟩ := ih hm' acc hacc
    rw [List.range_succ, List.foldl_append]
    simp only [List.foldl_cons, List.foldl_nil]
    have hym : m < rows := Nat.lt_of_succ_le hm
    obtain ⟨frect, fread⟩ :=
      inner_fold_spec g rows cols m hym cols (Nat.le_refl cols) _ ihrect
    refine ⟨frect, ?_⟩
    intro x' y' hx' hy'
    rw [fread x' y' hx' hy']
    by_cases hyy : y' = m
    · subst hyy
      simp [hx', ihread, Nat.lt_succ_self]
    · rw [ihread x' y' hx' hy']
      by_cases hlt : y' < m
      · simp [hyy, hlt, Nat.lt_succ_of_lt hlt]
      · have hnlt : ¬ y' < m + 1 := by omega
        simp [hyy, hlt, hnlt]

theorem inner_pair (y : Nat) :
    ∀ (l : List Nat) (st : StepState),
      l.foldl
          (fun st2 x => ⟨st2.prev, setCell st2.next y x (next_cell st2.prev x y)⟩)
          st =
        ⟨st.prev, l.foldl (fun a x => setCell a y x (next_cell st.prev x y)) st.next⟩ := by
  intro l
  induction l with
  | nil => intro st; rfl
  | cons a l ih =>
    intro st
    simp only [List.foldl_cons]
    rw [ih]

theorem outer_pair (cols : Nat) :
    ∀ (l : List Nat) (st : StepState),
      l.foldl
          (fun st y => (List.range cols).foldl
            (fun st2 x => ⟨st2.prev, setCell st2.next y x (next_cell st2.prev x y)⟩)
            st)
          st =
        ⟨st.prev, l.foldl
          (fun a y => (List.range cols).foldl
            (fun a2 x => setCell a2 y x (next_cell st.prev x y)) a)
          st.next⟩ := by
  intro l
  induction l with
  | nil => intro st; rfl
  | cons a l ih =>
    intro st
    simp only [List.foldl_cons]
    rw [inner_pair a (List.range cols) st, ih]

theorem step_writes_eq_plain (rows cols : Nat) (g : GridT) :
    step_writes rows cols g =
      ⟨g, (List.range rows).foldl
        (fun a y => (List.range cols).foldl
          (fun a2 x => setCell a2 y x (next_cell g x y)) a) g⟩ := by
  unfold step_writes
  rw [outer_pair cols (List.range rows) ⟨g, g⟩]

theorem cell_mem_of_rect (g : GridT) (rows cols x y : Nat) (hg : rect g rows cols)
    (hx : x < cols) (hy : y < rows) :
    cellAtNat g x y ∈ g.getD y [] ∧ g.getD y [] ∈ g := by
  obtain ⟨hlen, hrow⟩ := hg
  have hylen : y < g.length := hlen ▸ hy
  have hrowmem : g.getD y [] ∈ g := by
    rw [List.getD_eq_getElem g [] hylen]
    exact List.getElem_mem hylen
  have hxlen : x < (g.getD y []).length := by
    rw [hrow y hy]
    exact hx
  have hc : cellAtNat g x y = (g.getD y [])[x] := List.getD_eq_getElem _ DEAD hxlen
  exact ⟨hc ▸ List.getElem_mem hxlen, hrowmem⟩

theorem next_cell_eq_rule (g : GridT) (rows cols x y : Nat)
    (hg : rect g rows cols) (hrows : 1 ≤ rows)
    (hvalid : ∀ row ∈ g, ∀ c ∈ row, c = ALIVE ∨ c = DEAD)
    (hx : x < cols) (hy : y < rows) :
    next_cell g x y =
      ruleNext (cellAtNat g x y)
        (mooreAliveCount g rows cols ⟨(x : Int), (y : Int)⟩) := by
  have hcount := count_neighbours_eq_moore g rows cols ⟨(x : Int), (y : Int)⟩ hg hrows
  obtain ⟨hcm, hrm⟩ := cell_mem_of_rect g rows cols x y hg hx hy
  have hcell := hvalid _ hrm _ hcm
  have hAD : ALIVE ≠ DEAD := by decide
  have hDA : DEAD ≠ ALIVE := by decide
  simp only [next_cell, ruleNext]
  rw [← hcount]
  rcases hcell with hA | hD
  · rw [hA]
    by_cases h23 : count_neighbours g ⟨(x : Int), (y : Int)⟩ = 2 ∨
        count_neighbours g ⟨(x : Int), (y : Int)⟩ = 3
    · simp [h23]
    · simp [h23, hAD]
  · rw [hD]
    by_cases h3 : count_neighbours g ⟨(x : Int), (y : Int)⟩ = 3
    · simp [h3, hDA]
    · simp [h3, hDA]

/-- Claim C1: for every rectangular grid of two-state cells, the
next-generation function returns a grid of identical dimensions in
which each cell's next state is determined solely by the pre-step grid
(all neighbour counts come from the input, never from already-updated
cells): an alive cell with 2 or 3 living neighbours stays alive, a dead
cell with exactly 3 living neighbours becomes alive, and every other
cell becomes dead. -/
theorem get_next_iteration_correct (g : GridT) (rows cols : Nat)
    (hg : rect g rows cols) (hrows : 1 ≤ rows)
    (hvalid : ∀ row ∈ g, ∀ c ∈ row, c = ALIVE ∨ c = DEAD) :
    rect (get_next_iteration rows cols g) rows cols ∧
    ∀ x y, x < cols → y < rows →
      cellAtNat (get_next_iteration rows cols g) x y =
        ruleNext (cellAtNat g x y)
          (mooreAliveCount g rows cols ⟨(x : Int), (y : Int)⟩) := by
  have hplain : get_next_iteration rows cols g =
      (List.range rows).foldl
        (fun a y => (List.range cols).foldl
          (fun a2 x => setCell a2 y x (next_cell g x y)) a) g := by
    unfold get_next_iteration
    rw [step_writes_eq_plain]
  obtain ⟨hrect, hread⟩ := outer_fold_spec g rows cols rows (Nat.le_refl rows) g hg
  rw [hplain]
  refine ⟨hrect, ?_⟩
  intro x y hx hy
  rw [hread x y hx hy, if_pos hy]
  exact next_cell_eq_rule g rows cols x y hg hrows hvalid hx hy

/-- Witness for C1: the 3 by 3 vertical blinker. -/
theorem get_next_iteration_correct_witness :
    rect [['-', '*', '-'], ['-', '*', '-'], ['-', '*', '-']] 3 3 ∧
    (1 : Nat) ≤ 3 ∧
    (∀ row ∈ [['-', '*', '-'], ['-', '*', '-'], ['-', '*', '-']],
      ∀ c ∈ row, c = ALIVE ∨ c = DEAD) ∧
    (rect (get_next_iteration 3 3 [['-', '*', '-'], ['-', '*', '-'], ['-', '*', '-']])
        3 3 ∧
      ∀ x y, x < 3 → y < 3 →
        cellAtNat
            (get_next_iteration 3 3 [['-', '*', '-'], ['-', '*', '-'], ['-', '*', '-']])
            x y =
          ruleNext
            (cellAtNat [['-', '*', '-'], ['-', '*', '-'], ['-', '*', '-']] x y)
            (mooreAliveCount [['-', '*', '-'], ['-', '*', '-'], ['-', '*', '-']] 3 3
              ⟨(x : Int), (y : Int)⟩)) :=
  ⟨by constructor <;> decide, by decide, by decide,
    get_next_iteration_correct [['-', '*', '-'], ['-', '*', '-'], ['-', '*', '-']] 3 3
      ⟨by decide, by decide⟩ (by decide) (by decide)⟩

end Conway
